import Mathlib

/-!
Shallow embedding of `crates/cli/src/utils/worker.rs` from ast-grep:
the parallel work-discovery and dispatch core (multiple-producer /
single-consumer).  Rust `Result<T>` (anyhow) is embedded as
`Except String T`; paths are embedded at the component level as
`List String`, with the component "." standing for the current-dir
component that `Path::strip_prefix("./")` removes.  The concurrent walk
is embedded as an explicit linearized schedule of events processed by
the walk callback, and the mpsc channel as an explicit sender-side
state.  A trace records how often `consume_items` is invoked and with
which item sequence, so that "invoked exactly once" claims are
statable.
-/

/-- Modelled from the spec: `FileStats` (crate code outside `src/`) is a
pair of monotonically increasing counters `scanned` and `skipped`;
`add_scanned` and `add_skipped` increment them. -/
structure FileStats where
  scanned : Nat
  skipped : Nat
deriving DecidableEq, Repr

/-- Modelled from the spec: incrementing the `scanned` counter. -/
def FileStats.add_scanned (s : FileStats) : FileStats :=
  { s with scanned := s.scanned + 1 }

/-- Modelled from the spec: incrementing the `skipped` counter. -/
def FileStats.add_skipped (s : FileStats) : FileStats :=
  { s with skipped := s.skipped + 1 }

/-- File type of a directory entry, as queried by `is_file` (the only
query the source uses on `ignore::DirEntry::file_type()`). -/
structure FileType where
  is_file : Bool
deriving DecidableEq, Repr

/-- A successful discovery entry: `file_type()` may yield no answer
(`none`, e.g. for a standard-input pseudo-entry), and `into_path` yields
the path, embedded as its list of components. -/
structure DirEntry where
  fileType : Option FileType
  path : List String
deriving DecidableEq, Repr

/-- Embeds `Path::strip_prefix("./")`: succeeds exactly when the path
starts with the current-dir component ".", returning the rest. -/
def stripCurDir (p : List String) : Except Unit (List String) :=
  match p with
  | c :: rest => if c = "." then Except.ok rest else Except.error ()
  | [] => Except.error ()

/-- Embeds `filter_result`: on a discovery error, emit a diagnostic line
and discard; on success, discard entries without a file type or that are
not regular files; otherwise normalize the path by removing a leading
"./" component.  The first component of the result is the list of
diagnostic lines written to stderr. -/
def filter_result (result : Except String DirEntry) : List String × Option (List String) :=
  match result with
  | Except.error err => (["ERROR: " ++ err], none)
  | Except.ok entry =>
    match entry.fileType with
    | none => ([], none)
    | some ft =>
      if !ft.is_file then ([], none)
      else
        match stripCurDir entry.path with
        | Except.ok p => ([], some p)
        | Except.error _ => ([], some entry.path)

/-- State of the sender side of the mpsc channel: the items queued so
far, and whether the receiver is still alive (a send fails exactly when
the receiver has been dropped). -/
structure Chan (Item : Type) where
  buffer : List Item
  alive : Bool
deriving DecidableEq, Repr

/-- Embeds `mpsc::Sender::send`: succeeds and enqueues the item while
the receiver is alive, fails once the receiver has been dropped. -/
def Chan.send (c : Chan Item) (t : Item) : Except String (Chan Item) :=
  if c.alive then Except.ok { c with buffer := c.buffer ++ [t] } else Except.error "receiving on an empty and disconnected channel"

/-- The walk-engine signal returned by each callback: keep walking this
branch, or stop it. -/
inductive WalkState where
  | Continue : WalkState
  | Quit : WalkState
deriving DecidableEq, Repr

/-- Embeds the `for result in items { match tx.send(result) ... }` loop
of the walk callback in `run_worker`: send each produced item in
sequence; on the first failed send return `WalkState::Quit`, otherwise
fall through to `WalkState::Continue`. -/
def sendLoop (chan : Chan Item) (items : List Item) : Chan Item × WalkState :=
  match items with
  | [] => (chan, WalkState.Continue)
  | x :: rest =>
    match chan.send x with
    | Except.ok c2 => sendLoop c2 rest
    | Except.error _ => (chan, WalkState.Quit)

/-- Embeds one invocation of the boxed walk callback in `run_worker`:
filter the discovery result; if discarded, continue; otherwise count the
path as scanned, ask `produce_item`, counting a `None` answer as
skipped; otherwise send every produced item in sequence.  Returns the
updated stats, channel, the walk signal and the diagnostic lines. -/
def walkCallback (produce : List String → Option (List Item)) (st : FileStats)
    (chan : Chan Item) (r : Except String DirEntry) :
    FileStats × Chan Item × WalkState × List String :=
  match filter_result r with
  | (logs, none) => (st, chan, WalkState.Continue, logs)
  | (logs, some p) =>
    let st2 := st.add_scanned
    match produce p with
    | none => (st2.add_skipped, chan, WalkState.Continue, logs)
    | some items =>
      let (chan2, ws) := sendLoop chan items
      (st2, chan2, ws, logs)

/-- One event of a linearized walk schedule: a discovery result handed
to the callback, or the consumer dropping the receiver (because
`consume_items` returned early). -/
inductive WalkEvent where
  | entry : Except String DirEntry → WalkEvent
  | dropReceiver : WalkEvent

/-- Outcome of driving the walk to completion on one schedule. -/
structure WalkOutcome (Item : Type) where
  stats : FileStats
  chan : Chan Item
  logs : List String
deriving Repr

/-- Embeds `walker.run(...)` on one linearized schedule of events: each
entry is processed by the walk callback; a `Quit` signal stops the
branch (no further events are processed in this linearization). -/
def walkRun (produce : List String → Option (List Item)) :
    List WalkEvent → FileStats → Chan Item → WalkOutcome Item
  | [], st, chan => ⟨st, chan, []⟩
  | WalkEvent.dropReceiver :: evs, st, chan =>
      walkRun produce evs st { chan with alive := false }
  | WalkEvent.entry r :: evs, st, chan =>
      match walkCallback produce st chan r with
      | (st2, chan2, WalkState.Quit, logs) => ⟨st2, chan2, logs⟩
      | (st2, chan2, WalkState.Continue, logs) =>
        let o := walkRun produce evs st2 chan2
        ⟨o.stats, o.chan, logs ++ o.logs⟩

/-- The lazy item sequence handed to `consume_items`: it wraps the
channel receiver; blocking receives are linearized as popping the next
eventually-received item, and a receive fails exactly when every sender
has been dropped and the queued items are drained. -/
structure Items (Item : Type) where
  received : List Item
deriving DecidableEq, Repr

/-- Embeds `Items::next` (the `Iterator` impl): a successful receive
yields the item; once the channel is closed and drained, every receive
fails and the iterator yields `none`. -/
def Items.next (it : Items Item) : Option Item × Items Item :=
  match it.received with
  | [] => (none, ⟨[]⟩)
  | x :: rest => (some x, ⟨rest⟩)

/-- Iterating `Items.next` `n + 1` times obtains the option yielded by
the call number `n` (zero-based) together with the state after it. -/
def Items.nthNext (it : Items Item) : Nat → Option Item × Items Item
  | 0 => Items.next it
  | Nat.succ n => Items.nthNext (Items.next it).2 n

/-- Embeds `Items::once`: create a fresh channel, send the single item
on it (the receiver is held locally, so the channel is alive), turn a
send error into an `Err` and otherwise return the single-element
sequence. -/
def Items.once (t : Item) : Except String (Items Item) :=
  let c : Chan Item := ⟨[], true⟩
  match c.send t with
  | Except.ok c2 => Except.ok ⟨c2.buffer⟩
  | Except.error e => Except.error e

/-- A `PathWorker` implementation: `build_walk` yields the walk engine,
embedded as the linearized schedule it will drive; `produce_item` parses
one candidate path into zero or more items or declines it. -/
structure PathWorkerM (Item : Type) where
  build_walk : Except String (List WalkEvent)
  produce_item : List String → Option (List Item)
  consume_items : Items Item → Except String Unit

/-- Instrumentation of one `run_worker` run: how often `consume_items`
was invoked and with which arguments, the final stats and the
diagnostic lines. -/
structure RunTrace (Item : Type) where
  consumeCalls : Nat
  consumeArgs : List (Items Item)
  stats : FileStats
  logs : List String

/-- Embeds `run_worker`: build the walk engine, propagating a failure
immediately (no thread, no callback, no stats, no consumption);
otherwise drive the walk, closing the channel when it completes, and
invoke `consume_items` on the calling thread with the sequence wrapping
the receiver, returning its result. -/
def run_worker (w : PathWorkerM Item) (st0 : FileStats) :
    Except String Unit × RunTrace Item :=
  match w.build_walk with
  | Except.error e => (Except.error e, ⟨0, [], st0, []⟩)
  | Except.ok events =>
    let o := walkRun w.produce_item events st0 ⟨[], true⟩
    (w.consume_items ⟨o.chan.buffer⟩, ⟨1, [⟨o.chan.buffer⟩], o.stats, o.logs⟩)

/-- Embeds `PathWorker::run_path`, which hands the worker to
`run_worker`. -/
def PathWorkerM.run_path (w : PathWorkerM Item) (st0 : FileStats) :
    Except String Unit × RunTrace Item :=
  run_worker w st0

/-- A `StdInWorker` implementation: `parse_stdin` turns the whole input
into at most one item. -/
structure StdInWorkerM (Item : Type) where
  parse_stdin : String → Option Item
  consume_items : Items Item → Except String Unit

/-- Instrumentation of one `run_std_in` run. -/
structure StdInTrace (Item : Type) where
  consumeCalls : Nat
  consumeArgs : List (Items Item)

/-- Embeds `StdInWorker::run_std_in`: `readResult` is the outcome of
`std::io::read_to_string(std::io::stdin())`, whose error is propagated
by `?`; on success, parse the input, consuming a single-element
sequence when an item is produced and succeeding trivially otherwise. -/
def run_std_in (w : StdInWorkerM Item) (readResult : Except String String) :
    Except String Unit × StdInTrace Item :=
  match readResult with
  | Except.error e => (Except.error e, ⟨0, []⟩)
  | Except.ok source =>
    match w.parse_stdin source with
    | none => (Except.ok (), ⟨0, []⟩)
    | some item =>
      match Items.once item with
      | Except.error e => (Except.error e, ⟨0, []⟩)
      | Except.ok items => (w.consume_items items, ⟨1, [items]⟩)

/-- Lookup of the pending send queue of producer `pid`, empty when out
of range. -/
def getQ (queues : List (List Item)) (pid : Nat) : List Item :=
  (queues.get? pid).getD []

/-- Channel-level merge of several producers' send queues under a
schedule: at each scheduled step, the named producer sends its next
pending item (tagged with its id) if any remain.  This embeds the mpsc
guarantee that each sender's items enter the channel in their send
order while distinct senders interleave arbitrarily. -/
def interleave : List (List Item) → List Nat → List (Nat × Item)
  | _, [] => []
  | queues, pid :: sched =>
    match getQ queues pid with
    | [] => interleave queues sched
    | x :: rest => (pid, x) :: interleave (queues.set pid rest) sched

/-- The subsequence of a tagged item stream contributed by producer
`pid`, in stream order. -/
def sentBy (pid : Nat) (l : List (Nat × Item)) : List Item :=
  l.filterMap (fun pt => if pt.1 = pid then some pt.2 else none)

/-- The single send of `Items::once` always succeeds, since the locally
held receiver keeps the fresh channel alive. -/
theorem Items.once_eq (t : Item) : Items.once t = Except.ok ⟨[t]⟩ := by
  simp [Items.once, Chan.send]

/-- An iterator call that yields `none` was made on a drained, closed
channel. -/
theorem Items.next_none_eq (it : Items Item) (h : (Items.next it).1 = none) :
    it = ⟨[]⟩ := by
  cases it with
  | mk received =>
    cases received with
    | nil => rfl
    | cons x rest => simp [Items.next] at h

/-- Every iterator call on a drained, closed channel yields `none` and
leaves the state drained. -/
theorem Items.nthNext_nil (n : Nat) :
    Items.nthNext (⟨[]⟩ : Items Item) n = (none, ⟨[]⟩) := by
  induction n with
  | zero => rfl
  | succ n ih => simpa [Items.nthNext, Items.next] using ih

/-- Claim C10: for every item `t`, `Items.once t` never takes its error
branch (the send cannot fail because the receiver is held locally), so
it always returns `Ok` of a sequence that yields exactly `t` and then
ends. -/
theorem items_once_never_errs : ∀ (Item : Type) (t : Item),
    Items.once t = Except.ok ⟨[t]⟩ ∧
    Items.next (⟨[t]⟩ : Items Item) = (some t, ⟨[]⟩) ∧
    Items.next (⟨[]⟩ : Items Item) = (none, ⟨[]⟩) := by
  intro Item t
  exact ⟨Items.once_eq t, rfl, rfl⟩

/-- Claim C7: the `Items` iterator yields an item for each successful
blocking receive, yields `none` the first time a receive fails because
every sender has been dropped (the channel is drained and closed), and
once it has yielded `none` every subsequent call yields `none` again. -/
theorem items_iterator_spec : ∀ (Item : Type),
    (∀ (x : Item) (xs : List Item), Items.next ⟨x :: xs⟩ = (some x, ⟨xs⟩)) ∧
    (Items.next (⟨[]⟩ : Items Item) = (none, ⟨[]⟩)) ∧
    (∀ (it : Items Item) (n m : Nat), n ≤ m → (Items.nthNext it n).1 = none →
      (Items.nthNext it m).1 = none) := by
  intro Item
  refine ⟨fun x xs => rfl, rfl, ?_⟩
  intro it n
  induction n generalizing it with
  | zero =>
    intro m _ h0
    have hit : it = ⟨[]⟩ := Items.next_none_eq it h0
    subst hit
    rw [Items.nthNext_nil]
  | succ n ih =>
    intro m hm hn
    obtain ⟨m2, rfl⟩ : ∃ m2, m = m2 + 1 :=
      ⟨m - 1, by omega⟩
    have hm2 : n ≤ m2 := by omega
    have hn2 : (Items.nthNext (Items.next it).2 n).1 = none := hn
    exact ih (Items.next it).2 m2 hm2 hn2

/-- Claim C7 witness at concrete inputs. -/
theorem items_iterator_spec_witness :
    Items.next (⟨[1, 2]⟩ : Items Nat) = (some 1, ⟨[2]⟩) ∧
    (Items.nthNext (⟨[1]⟩ : Items Nat) 3).1 = none := by
  refine ⟨(items_iterator_spec Nat).1 1 [2], ?_⟩
  exact (items_iterator_spec Nat).2.2 ⟨[1]⟩ 1 3 (by decide) (by decide)

/-- Claim C2: `filter_result` writes a diagnostic line and returns
nothing on a discovery error; returns nothing for a successful entry
that is not a regular file; for a regular-file entry whose path begins
with a leading "./" component it returns the path with that component
removed; any other regular-file path is returned unchanged. -/
theorem filter_result_cases : ∀ (e : String) (ent : DirEntry) (ft : FileType),
    (filter_result (Except.error e) = (["ERROR: " ++ e], none)) ∧
    (ent.fileType = some ft → ft.is_file = false →
      filter_result (Except.ok ent) = ([], none)) ∧
    (∀ rest, ent.fileType = some ft → ft.is_file = true → ent.path = "." :: rest →
      filter_result (Except.ok ent) = ([], some rest)) ∧
    (ent.fileType = some ft → ft.is_file = true → ent.path.head? ≠ some "." →
      filter_result (Except.ok ent) = ([], some ent.path)) := by
  intro e ent ft
  refine ⟨rfl, ?_, ?_, ?_⟩
  · intro h1 h2
    simp [filter_result, h1, h2]
  · intro rest h1 h2 h3
    simp [filter_result, h1, h2, h3, stripCurDir]
  · intro h1 h2 h3
    have hstrip : stripCurDir ent.path = Except.error () := by
      cases hp : ent.path with
      | nil => rfl
      | cons a rest =>
        have ha : a ≠ "." := by
          intro hEq
          exact h3 (by simp [hp, hEq])
        simp [stripCurDir, ha]
    simp [filter_result, h1, h2, hstrip]

/-- Claim C2 witness at concrete inputs. -/
theorem filter_result_cases_witness :
    filter_result (Except.ok ⟨some ⟨true⟩, [".", "a.rs"]⟩) = ([], some ["a.rs"]) ∧
    filter_result (Except.ok ⟨some ⟨true⟩, ["src", "b.rs"]⟩) = ([], some ["src", "b.rs"]) ∧
    filter_result (Except.ok ⟨some ⟨false⟩, ["d"]⟩) = ([], none) := by
  refine ⟨?_, ?_, ?_⟩
  · exact (filter_result_cases "x" ⟨some ⟨true⟩, [".", "a.rs"]⟩ ⟨true⟩).2.2.1 ["a.rs"] rfl rfl rfl
  · exact (filter_result_cases "x" ⟨some ⟨true⟩, ["src", "b.rs"]⟩ ⟨true⟩).2.2.2 rfl rfl (by decide)
  · exact (filter_result_cases "x" ⟨some ⟨false⟩, ["d"]⟩ ⟨false⟩).2.1 rfl rfl

/-- Claim C9: a successful discovery entry whose file-type query yields
no answer at all is discarded exactly like a non-regular-file entry: the
filter returns `none`, and the walk callback leaves the counters and the
channel untouched and produces no candidate path. -/
theorem filter_none_filetype : ∀ (Item : Type)
    (produce : List String → Option (List Item)) (st : FileStats)
    (chan : Chan Item) (ent : DirEntry),
    ent.fileType = none →
    filter_result (Except.ok ent) = ([], none) ∧
    walkCallback produce st chan (Except.ok ent) = (st, chan, WalkState.Continue, []) := by
  intro Item produce st chan ent h
  have hf : filter_result (Except.ok ent) = ([], none) := by
    simp [filter_result, h]
  exact ⟨hf, by simp [walkCallback, hf]⟩

/-- Claim C9 witness at concrete inputs. -/
theorem filter_none_filetype_witness :
    walkCallback (fun _ => some [(0 : Nat)]) ⟨0, 0⟩ ⟨[], true⟩ (Except.ok ⟨none, ["a"]⟩)
      = (⟨0, 0⟩, ⟨[], true⟩, WalkState.Continue, []) :=
  (filter_none_filetype Nat (fun _ => some [0]) ⟨0, 0⟩ ⟨[], true⟩ ⟨none, ["a"]⟩ rfl).2

/-- Claim C4: `run_std_in` propagates a standard-input read failure
before any parsing or consumption; when the read succeeds and
`parse_stdin` yields nothing it returns `Ok` without ever invoking
`consume_items`; when `parse_stdin` yields an item it invokes
`consume_items` exactly once with the single-element sequence holding
that item and returns its result. -/
theorem run_std_in_cases : ∀ (Item : Type) (w : StdInWorkerM Item)
    (e src : String) (item : Item),
    (run_std_in w (Except.error e) = (Except.error e, ⟨0, []⟩)) ∧
    (w.parse_stdin src = none →
      run_std_in w (Except.ok src) = (Except.ok (), ⟨0, []⟩)) ∧
    (w.parse_stdin src = some item →
      run_std_in w (Except.ok src) = (w.consume_items ⟨[item]⟩, ⟨1, [⟨[item]⟩]⟩)) := by
  intro Item w e src item
  refine ⟨rfl, ?_, ?_⟩
  · intro h
    simp [run_std_in, h]
  · intro h
    simp [run_std_in, h, Items.once_eq]

/-- Claim C4 witness at concrete inputs. -/
theorem run_std_in_cases_witness :
    run_std_in (⟨fun _ => none, fun _ => Except.ok ()⟩ : StdInWorkerM Nat)
      (Except.ok "") = (Except.ok (), ⟨0, []⟩) ∧
    run_std_in (⟨fun _ => some 7, fun _ => Except.ok ()⟩ : StdInWorkerM Nat)
      (Except.ok "x") = (Except.ok (), ⟨1, [⟨[7]⟩]⟩) := by
  constructor
  · exact (run_std_in_cases Nat ⟨fun _ => none, fun _ => Except.ok ()⟩ "e" "" 0).2.1 rfl
  · exact (run_std_in_cases Nat ⟨fun _ => some 7, fun _ => Except.ok ()⟩ "e" "x" 7).2.2 rfl

/-- A concrete path worker used to exercise the dispatch theorems. -/
def demoWorker : PathWorkerM Nat :=
  ⟨Except.ok [WalkEvent.entry (Except.ok ⟨some ⟨true⟩, ["f"]⟩)],
   fun _ => some [3, 4], fun _ => Except.ok ()⟩

/-- A concrete path worker whose walk-engine construction fails. -/
def demoWorkerBad : PathWorkerM Nat :=
  ⟨Except.error "bad walk", fun _ => some [3], fun _ => Except.ok ()⟩

/-- Claim C1: when `build_walk` succeeds, `run_path` (via `run_worker`)
invokes `consume_items` exactly once, on the lazy sequence wrapping the
channel's receiver, and returns exactly the result `consume_items`
returned, whether `Ok` or an error. -/
theorem run_path_consume_once : ∀ (Item : Type) (w : PathWorkerM Item)
    (st0 : FileStats) (events : List WalkEvent),
    w.build_walk = Except.ok events →
    (w.run_path st0).1
      = w.consume_items ⟨(walkRun w.produce_item events st0 ⟨[], true⟩).chan.buffer⟩ ∧
    (w.run_path st0).2.consumeCalls = 1 ∧
    (w.run_path st0).2.consumeArgs
      = [⟨(walkRun w.produce_item events st0 ⟨[], true⟩).chan.buffer⟩] := by
  intro Item w st0 events h
  refine ⟨?_, ?_, ?_⟩ <;> simp [PathWorkerM.run_path, run_worker, h]

/-- Claim C1 witness at concrete inputs. -/
theorem run_path_consume_once_witness :
    (demoWorker.run_path ⟨0, 0⟩).1
      = demoWorker.consume_items
          ⟨(walkRun demoWorker.produce_item
              [WalkEvent.entry (Except.ok ⟨some ⟨true⟩, ["f"]⟩)] ⟨0, 0⟩ ⟨[], true⟩).chan.buffer⟩ ∧
    (demoWorker.run_path ⟨0, 0⟩).2.consumeCalls = 1 :=
  ⟨(run_path_consume_once Nat demoWorker ⟨0, 0⟩
      [WalkEvent.entry (Except.ok ⟨some ⟨true⟩, ["f"]⟩)] rfl).1,
   (run_path_consume_once Nat demoWorker ⟨0, 0⟩
      [WalkEvent.entry (Except.ok ⟨some ⟨true⟩, ["f"]⟩)] rfl).2.1⟩

/-- Claim C5: when `build_walk` fails, `run_path` returns that error
immediately: no walk callback runs (no diagnostics), the stats are
untouched, and `consume_items` is never invoked. -/
theorem run_path_build_walk_error : ∀ (Item : Type) (w : PathWorkerM Item)
    (st0 : FileStats) (e : String),
    w.build_walk = Except.error e →
    w.run_path st0 = (Except.error e, ⟨0, [], st0, []⟩) := by
  intro Item w st0 e h
  simp [PathWorkerM.run_path, run_worker, h]

/-- Claim C5 witness at concrete inputs. -/
theorem run_path_build_walk_error_witness :
    demoWorkerBad.run_path ⟨2, 1⟩ = (Except.error "bad walk", ⟨0, [], ⟨2, 1⟩, []⟩) :=
  run_path_build_walk_error Nat demoWorkerBad ⟨2, 1⟩ "bad walk" rfl

/-- Claim C6: when a send fails because the receiver has been dropped,
the walk callback returns the stop-this-branch signal `WalkState.Quit`
instead of continuing, and the send failure is never surfaced in the
run's result: the result is always exactly what `consume_items`
returned. -/
theorem send_failure_quits_branch : ∀ (Item : Type)
    (chan : Chan Item) (x : Item) (rest : List Item)
    (produce : List String → Option (List Item)) (st : FileStats)
    (r : Except String DirEntry) (p : List String)
    (w : PathWorkerM Item) (st0 : FileStats) (events : List WalkEvent),
    (chan.alive = false → sendLoop chan (x :: rest) = (chan, WalkState.Quit)) ∧
    (chan.alive = false → (filter_result r).2 = some p →
      produce p = some (x :: rest) →
      (walkCallback produce st chan r).2.2.1 = WalkState.Quit) ∧
    (w.build_walk = Except.ok events →
      (w.run_path st0).1 = w.consume_items
        ⟨(walkRun w.produce_item events st0 ⟨[], true⟩).chan.buffer⟩) := by
  intro Item chan x rest produce st r p w st0 events
  refine ⟨?_, ?_, ?_⟩
  · intro ha
    simp [sendLoop, Chan.send, ha]
  · intro ha hf hp
    rcases hEq : filter_result r with ⟨logs, op⟩
    rw [hEq] at hf
    simp at hf
    subst hf
    have hsend : sendLoop chan (x :: rest) = (chan, WalkState.Quit) := by
      simp [sendLoop, Chan.send, ha]
    simp [walkCallback, hEq, hp, hsend]
  · intro h
    simp [PathWorkerM.run_path, run_worker, h]

/-- Claim C6 witness at concrete inputs. -/
theorem send_failure_quits_branch_witness :
    sendLoop (⟨[], false⟩ : Chan Nat) [1] = (⟨[], false⟩, WalkState.Quit) ∧
    (walkCallback (fun _ => some [1]) ⟨0, 0⟩ (⟨[], false⟩ : Chan Nat)
      (Except.ok ⟨some ⟨true⟩, ["f"]⟩)).2.2.1 = WalkState.Quit := by
  constructor
  · exact (send_failure_quits_branch Nat ⟨[], false⟩ 1 [] (fun _ => some [1])
      ⟨0, 0⟩ (Except.ok ⟨some ⟨true⟩, ["f"]⟩) ["f"] demoWorker ⟨0, 0⟩ []).1 rfl
  · exact (send_failure_quits_branch Nat ⟨[], false⟩ 1 [] (fun _ => some [1])
      ⟨0, 0⟩ (Except.ok ⟨some ⟨true⟩, ["f"]⟩) ["f"] demoWorker ⟨0, 0⟩ []).2.1
      rfl (by decide) rfl

/-- One walk callback never decreases either counter, and the skipped
increment never exceeds the scanned increment. -/
theorem walkCallback_stats (produce : List String → Option (List Item))
    (st : FileStats) (chan : Chan Item) (r : Except String DirEntry) :
    st.scanned ≤ (walkCallback produce st chan r).1.scanned ∧
    st.skipped ≤ (walkCallback produce st chan r).1.skipped ∧
    (walkCallback produce st chan r).1.skipped + st.scanned
      ≤ (walkCallback produce st chan r).1.scanned + st.skipped := by
  rcases hEq : filter_result r with ⟨logs, op⟩
  cases op with
  | none =>
    simp [walkCallback, hEq]
    omega
  | some p =>
    cases hp : produce p with
    | none =>
      simp [walkCallback, hEq, hp, FileStats.add_scanned, FileStats.add_skipped]
      omega
    | some items =>
      rcases hs : sendLoop chan items with ⟨chan2, ws⟩
      simp [walkCallback, hEq, hp, hs, FileStats.add_scanned]
      omega

/-- Driving the walk never decreases either counter, and the skipped
increase is bounded by the scanned increase. -/
theorem walkRun_stats (produce : List String → Option (List Item))
    (events : List WalkEvent) :
    ∀ (st : FileStats) (chan : Chan Item),
    st.scanned ≤ (walkRun produce events st chan).stats.scanned ∧
    st.skipped ≤ (walkRun produce events st chan).stats.skipped ∧
    (walkRun produce events st chan).stats.skipped + st.scanned
      ≤ (walkRun produce events st chan).stats.scanned + st.skipped := by
  induction events with
  | nil =>
    intro st chan
    simp [walkRun]
    omega
  | cons ev evs ih =>
    intro st chan
    cases ev with
    | dropReceiver =>
      simpa [walkRun] using ih st { chan with alive := false }
    | entry r =>
      have hcb := walkCallback_stats produce st chan r
      rcases hc : walkCallback produce st chan r with ⟨st2, chan2, ws, logs⟩
      rw [hc] at hcb
      simp at hcb
      obtain ⟨a1, a2, a3⟩ := hcb
      cases ws with
      | Quit =>
        simp [walkRun, hc]
        omega
      | Continue =>
        obtain ⟨b1, b2, b3⟩ := ih st2 chan2
        simp [walkRun, hc]
        omega

/-- Claim C3: for every path that survives the filter, the callback
increments `scanned` exactly once (applied before `produce_item` is
consulted) and increments `skipped` exactly once iff `produce_item`
returns `none`; a filtered-out result touches neither counter; each
callback only ever increments the counters; and after any run started
from zeroed stats, `skipped ≤ scanned`. -/
theorem walk_stats_counters : ∀ (Item : Type)
    (produce : List String → Option (List Item)) (st : FileStats)
    (chan : Chan Item) (r : Except String DirEntry) (p : List String)
    (events : List WalkEvent) (chan0 : Chan Item),
    ((filter_result r).2 = some p →
      (walkCallback produce st chan r).1.scanned = st.scanned + 1 ∧
      (walkCallback produce st chan r).1.skipped
        = st.skipped + (if (produce p).isNone then 1 else 0)) ∧
    ((filter_result r).2 = none →
      (walkCallback produce st chan r).1 = st) ∧
    (st.scanned ≤ (walkCallback produce st chan r).1.scanned ∧
     st.skipped ≤ (walkCallback produce st chan r).1.skipped) ∧
    (walkRun produce events ⟨0, 0⟩ chan0).stats.skipped
      ≤ (walkRun produce events ⟨0, 0⟩ chan0).stats.scanned := by
  intro Item produce st chan r p events chan0
  refine ⟨?_, ?_, ?_, ?_⟩
  · intro hf
    rcases hEq : filter_result r with ⟨logs, op⟩
    rw [hEq] at hf
    simp at hf
    subst hf
    cases hp : produce p with
    | none =>
      simp [walkCallback, hEq, hp, FileStats.add_scanned, FileStats.add_skipped]
    | some items =>
      rcases hs : sendLoop chan items with ⟨chan2, ws⟩
      simp [walkCallback, hEq, hp, hs, FileStats.add_scanned]
  · intro hf
    rcases hEq : filter_result r with ⟨logs, op⟩
    rw [hEq] at hf
    simp at hf
    subst hf
    simp [walkCallback, hEq]
  · exact ⟨(walkCallback_stats produce st chan r).1,
      (walkCallback_stats produce st chan r).2.1⟩
  · have h := walkRun_stats produce events (⟨0, 0⟩ : FileStats) chan0
    simp at h
    omega

/-- Claim C3 witness at concrete inputs. -/
theorem walk_stats_counters_witness :
    (walkCallback (fun _ => (none : Option (List Nat))) ⟨0, 0⟩ ⟨[], true⟩
       (Except.ok ⟨some ⟨true⟩, ["f"]⟩)).1.scanned = 0 + 1 ∧
    (walkCallback (fun _ => (none : Option (List Nat))) ⟨0, 0⟩ ⟨[], true⟩
       (Except.ok ⟨some ⟨true⟩, ["f"]⟩)).1.skipped
      = 0 + (if ((fun (_ : List String) => (none : Option (List Nat))) ["f"]).isNone
             then 1 else 0) :=
  (walk_stats_counters Nat (fun _ => none) ⟨0, 0⟩ ⟨[], true⟩
    (Except.ok ⟨some ⟨true⟩, ["f"]⟩) ["f"] [] ⟨[], true⟩).1 (by decide)

/-- A send loop on a live channel appends exactly its items, in order,
and leaves the channel alive, signalling `Continue`. -/
theorem sendLoop_alive : ∀ (items : List Item) (chan : Chan Item),
    chan.alive = true →
    sendLoop chan items = (⟨chan.buffer ++ items, true⟩, WalkState.Continue) := by
  intro items
  induction items with
  | nil =>
    intro chan h
    cases chan with
    | mk b a =>
      simp at h
      subst h
      simp [sendLoop]
  | cons x rest ih =>
    intro chan h
    cases chan with
    | mk b a =>
      simp at h
      subst h
      have h2 := ih ⟨b ++ [x], true⟩ rfl
      simp at h2
      simp [sendLoop, Chan.send, h2]

/-- Updating the queue of one producer leaves it readable at its id. -/
theorem getQ_set_self (queues : List (List Item)) (pid : Nat) (v : List Item)
    (h : pid < queues.length) : getQ (queues.set pid v) pid = v := by
  induction queues generalizing pid with
  | nil => simp at h
  | cons q qs ih =>
    cases pid with
    | zero => rfl
    | succ n => exact ih n (by simpa using h)

/-- Updating the queue of one producer leaves every other queue
unchanged. -/
theorem getQ_set_other (queues : List (List Item)) (i j : Nat) (v : List Item)
    (h : i ≠ j) : getQ (queues.set i v) j = getQ queues j := by
  induction queues generalizing i j with
  | nil => rfl
  | cons q qs ih =>
    cases i with
    | zero =>
      cases j with
      | zero => exact absurd rfl h
      | succ m => rfl
    | succ n =>
      cases j with
      | zero => rfl
      | succ m => exact ih n m (fun hh => h (by rw [hh]))

/-- A producer with a pending item is within the queue table. -/
theorem getQ_lt_length (queues : List (List Item)) (pid : Nat) (x : Item)
    (rest : List Item) (h : getQ queues pid = x :: rest) :
    pid < queues.length := by
  by_contra hc
  have hnone : queues.get? pid = none := by
    rw [List.get?_eq_none]
    omega
  simp only [getQ] at h
  rw [hnone] at h
  simp at h

/-- Whatever the schedule, the subsequence of the merged stream
contributed by one producer is an initial segment of that producer's
send queue, in order. -/
theorem sentBy_interleave_front (sched : List Nat) :
    ∀ (queues : List (List Item)) (pid : Nat),
    ∃ t, sentBy pid (interleave queues sched) ++ t = getQ queues pid := by
  induction sched with
  | nil =>
    intro queues pid
    exact ⟨getQ queues pid, by simp [interleave, sentBy]⟩
  | cons pid2 sched ih =>
    intro queues pid
    cases hq : getQ queues pid2 with
    | nil =>
      simpa [interleave, hq] using ih queues pid
    | cons x rest =>
      by_cases hp : pid2 = pid
      · subst hp
        obtain ⟨t, ht⟩ := ih (queues.set pid2 rest) pid2
        refine ⟨t, ?_⟩
        have hlt := getQ_lt_length queues pid2 x rest hq
        rw [getQ_set_self queues pid2 rest hlt] at ht
        have hstep : sentBy pid2 (interleave queues (pid2 :: sched))
            = x :: sentBy pid2 (interleave (queues.set pid2 rest) sched) := by
          simp [interleave, hq, sentBy]
        rw [hstep, hq]
        simp [ht]
      · obtain ⟨t, ht⟩ := ih (queues.set pid2 rest) pid
        refine ⟨t, ?_⟩
        have hstep : sentBy pid (interleave queues (pid2 :: sched))
            = sentBy pid (interleave (queues.set pid2 rest) sched) := by
          simp [interleave, hq, sentBy, hp]
        rw [hstep]
        rw [getQ_set_other queues pid2 pid rest hp] at ht
        exact ht

/-- When the schedule grants a producer at least as many send steps as
it has pending items, the consumer observes that producer's whole send
queue, in order. -/
theorem sentBy_interleave_complete (sched : List Nat) :
    ∀ (queues : List (List Item)) (pid : Nat),
    (getQ queues pid).length ≤ sched.count pid →
    sentBy pid (interleave queues sched) = getQ queues pid := by
  induction sched with
  | nil =>
    intro queues pid h
    have hq : getQ queues pid = [] := by
      have : (getQ queues pid).length = 0 := by simpa using h
      simpa using this
    simp [interleave, sentBy, hq]
  | cons pid2 sched ih =>
    intro queues pid h
    cases hq : getQ queues pid2 with
    | nil =>
      by_cases hp : pid2 = pid
      · subst hp
        rw [hq]
        simpa [interleave, hq] using ih queues pid2 (by simp [hq])
      · have h2 : (getQ queues pid).length ≤ sched.count pid := by
          simp [List.count_cons, hp] at h
          omega
        simpa [interleave, hq] using ih queues pid h2
    | cons x rest =>
      have hlt := getQ_lt_length queues pid2 x rest hq
      by_cases hp : pid2 = pid
      · subst hp
        have hlen : (getQ queues pid2).length = rest.length + 1 := by
          rw [hq]
          simp
        have h2 : (getQ (queues.set pid2 rest) pid2).length ≤ sched.count pid2 := by
          rw [getQ_set_self queues pid2 rest hlt]
          simp [List.count_cons] at h
          omega
        have hihm := ih (queues.set pid2 rest) pid2 h2
        rw [getQ_set_self queues pid2 rest hlt] at hihm
        have hstep : sentBy pid2 (interleave queues (pid2 :: sched))
            = x :: sentBy pid2 (interleave (queues.set pid2 rest) sched) := by
          simp [interleave, hq, sentBy]
        rw [hstep, hq, hihm]
      · have h2 : (getQ (queues.set pid2 rest) pid).length ≤ sched.count pid := by
          rw [getQ_set_other queues pid2 pid rest hp]
          simp [List.count_cons, hp] at h
          omega
        have hihm := ih (queues.set pid2 rest) pid h2
        rw [getQ_set_other queues pid2 pid rest hp] at hihm
        have hstep : sentBy pid (interleave queues (pid2 :: sched))
            = sentBy pid (interleave (queues.set pid2 rest) sched) := by
          simp [interleave, hq, sentBy, hp]
        rw [hstep, hihm]

/-- Claim C8: the k items of one `produce_item` call are sent in
sequence on one sender (the send loop appends them to the channel in
their original order), and under any interleaving of producers the
consumer observes those k items in their original relative order within
the overall stream — the whole sequence once the schedule lets that
producer finish sending. -/
theorem producer_order_preserved : ∀ (Item : Type)
    (chan : Chan Item) (items : List Item)
    (queues : List (List Item)) (sched : List Nat) (pid : Nat),
    (chan.alive = true →
      sendLoop chan items = (⟨chan.buffer ++ items, true⟩, WalkState.Continue)) ∧
    (∃ t, sentBy pid (interleave queues sched) ++ t = getQ queues pid) ∧
    ((getQ queues pid).length ≤ sched.count pid →
      sentBy pid (interleave queues sched) = getQ queues pid) := by
  intro Item chan items queues sched pid
  exact ⟨sendLoop_alive items chan,
    sentBy_interleave_front sched queues pid,
    sentBy_interleave_complete sched queues pid⟩

/-- Claim C8 witness at concrete inputs. -/
theorem producer_order_preserved_witness :
    sendLoop (⟨[9], true⟩ : Chan Nat) [1, 2]
      = (⟨[9] ++ [1, 2], true⟩, WalkState.Continue) ∧
    sentBy 0 (interleave [[1, 2], [5]] [0, 1, 0]) = getQ [[1, 2], [5]] 0 := by
  constructor
  · exact (producer_order_preserved Nat ⟨[9], true⟩ [1, 2] [[1, 2], [5]]
      [0, 1, 0] 0).1 rfl
  · exact (producer_order_preserved Nat ⟨[9], true⟩ [1, 2] [[1, 2], [5]]
      [0, 1, 0] 0).2.2 (by decide)
